import Mathlib

/-!
Shallow embedding of the FilterKD repository's knowledge-distillation loss
code and of its adaptive kNN-MT model glue, together with theorems checking
the repository specification against it.

PyTorch tensors of shape `(N, V)` (already flattened over the batch and
sequence dimensions, `V` the vocabulary size) are embedded as `List (List ℚ)`:
one inner list of vocabulary-indexed entries per token position.  Floating
point numbers are embedded as rationals; the real logarithm has no exact
rational value, so every definition that needs a logarithm takes an oracle
`rlog : ℚ → ℚ` standing for the (total, torch-style) elementwise logarithm.
Python's `math.log`, which raises `ValueError` on non-positive input, is
embedded as an `Option`-returning function built on the same oracle.
-/

namespace FilterKD

/-- Python `math.log` on floats: defined (with the oracle value `rlog x`) for
positive `x`; a raised `ValueError` is embedded as `none`. -/
def math_log (rlog : ℚ → ℚ) (x : ℚ) : Option ℚ :=
  if 0 < x then some (rlog x) else none

/-- The product `x * log x` with the `0 * log 0 = 0` convention of torch's `xlogy`, which
`F.kl_div` uses for its `target * log target` term. -/
def xlogy (rlog : ℚ → ℚ) (x : ℚ) : ℚ :=
  if x = 0 then 0 else x * rlog x

/-- One row of `F.kl_div(input, target, reduction="none").sum(dim=-1)`: the sum
over the vocabulary of `target * (log target - input)`. -/
def klRow (rlog : ℚ → ℚ) (input targetRow : List ℚ) : ℚ :=
  ((targetRow.zip input).map (fun q => xlogy rlog q.1 - q.1 * q.2)).sum

/-- The value `row.max()` of one (nonempty) tensor row, as used by `kNN_prob.max(dim=1)`. -/
def rowMax : List ℚ → ℚ
  | [] => 0
  | a :: l => l.foldl max a

namespace Step2

/-! Embedding of `src/docs/label_smoothed_cross_entropy-step2.py`. -/

/-- The per-position entries of `nll_loss = -lprobs.gather(dim=-1, index=target)`
after the `masked_fill_(pad_mask, 0.)` step (which runs only when an
`ignore_index` is given). -/
def nllTerms : List (List ℚ) → List ℕ → Option ℕ → List ℚ
  | lp :: lps, t :: ts, ignore_index =>
      (match ignore_index with
       | some pad => if t = pad then 0 else -(lp.getD t 0)
       | none => -(lp.getD t 0)) :: nllTerms lps ts ignore_index
  | _, _, _ => []

/-- The per-position entries of `smooth_loss = -lprobs.sum(dim=-1, keepdim=True)`
after the `masked_fill_(pad_mask, 0.)` step. -/
def smoothTerms : List (List ℚ) → List ℕ → Option ℕ → List ℚ
  | lp :: lps, t :: ts, ignore_index =>
      (match ignore_index with
       | some pad => if t = pad then 0 else -lp.sum
       | none => -lp.sum) :: smoothTerms lps ts ignore_index
  | _, _, _ => []

/-- Embedding of `label_smoothed_nll_loss` from
`src/docs/label_smoothed_cross_entropy-step2.py` (lines 21-38), on the
`reduce=True` path used by `compute_loss`.  `V` is `lprobs.size(-1)`.
Returns the pair `(loss, nll_loss)`. -/
def label_smoothed_nll_loss (lprobs : List (List ℚ)) (target : List ℕ)
    (epsilon : ℚ) (ignore_index : Option ℕ) (V : ℕ) : ℚ × ℚ :=
  let nll_loss := (nllTerms lprobs target ignore_index).sum
  let smooth_loss := (smoothTerms lprobs target ignore_index).sum
  let eps_i := epsilon / (V : ℚ)
  ((1 - epsilon) * nll_loss + eps_i * smooth_loss, nll_loss)

/-- The teacher-derived distributions consumed by `compute_loss`; they are
produced by external calls (`get_teacher_probs_direct` applies the frozen
teacher's softmax, `get_teacher_probs` combines the retrieval distribution
with the teacher output through the Combiner), so the embedding takes the
two resulting `(N, V)` matrices as inputs. -/
structure TeacherData where
  /-- Result of `get_teacher_probs_direct(teacher_output)`: the teacher's own output
  distribution, flattened to `(N, V)`. -/
  nmtProb : List (List ℚ)
  /-- Result of `get_teacher_probs(teacher_output)`: the retrieval (kNN) probability
  matrix, flattened to `(N, V)`. -/
  knnProb : List (List ℚ)

/-- The `adapter_direct` mask, lines 216-222 of the source:
`mask = (kNN_prob.gather(1, target) >= kNN_prob.max(dim=1, keepdim=True)).float()`,
one entry per token position. -/
def adapterMask : List (List ℚ) → List ℕ → List ℚ
  | r :: rs, t :: ts =>
      (if r.getD t 0 ≥ rowMax r then (1 : ℚ) else 0) :: adapterMask rs ts
  | _, _ => []

/-- Lines 225-228 of the source:
`knn_prob = 0.5 * kNN_prob * mask`, `nmt_prob = nmt_prob * (1 - 0.5 * mask)`,
`distil_lprobs = knn_prob + nmt_prob`, with the per-row mask broadcast over
the vocabulary dimension. -/
def blendRows : List ℚ → List (List ℚ) → List (List ℚ) → List (List ℚ)
  | m :: ms, k :: ks, n :: ns =>
      (List.zipWith (fun a b => (0.5 : ℚ) * m * a + (1 - (0.5 : ℚ) * m) * b) k n)
        :: blendRows ms ks ns
  | _, _, _ => []

/-- Embedding of `KL_loss = F.kl_div(lprobs, tprobs, reduction="none").sum(dim=-1)` followed
by `KL_loss.masked_fill_(pad_mask, 0.)` and `KL_loss.sum()`. -/
def maskedKLSum (rlog : ℚ → ℚ) : List (List ℚ) → List (List ℚ) → List ℕ → ℕ → ℚ
  | lp :: lps, tp :: tps, t :: ts, pad =>
      (if t = pad then 0 else klRow rlog lp tp) + maskedKLSum rlog lps tps ts pad
  | _, _, _, _ => 0

/-- Embedding of `LabelSmoothedCrossEntropyCriterionAdapter.compute_loss`
(lines 173-237 of the source), on the `reduce=True` path.  `probs` is the
student matrix `model.get_normalized_probs(net_output, log_probs=False)`
flattened to `(N, V)`; the source also computes temperature-scaled copies
`t_probs`/`t_lprobs`, which none of the three strategies reads, so they are
omitted.  Returns `(loss, nll_loss, extra_result["KD_loss"])`, each `none`
when the source leaves the corresponding Python variable as `None`. -/
def compute_loss (rlog : ℚ → ℚ) (distil_strategy : String)
    (teacher_output : Option TeacherData) (probs : List (List ℚ))
    (target : List ℕ) (padding_idx : ℕ) (eps : ℚ) (V : ℕ) :
    Option ℚ × Option ℚ × Option ℚ :=
  let lprobs := probs.map (fun r => r.map rlog)
  match teacher_output with
  | none =>
      let p := label_smoothed_nll_loss lprobs target eps (some padding_idx) V
      (some p.1, some p.2, none)
  | some td =>
      if distil_strategy = "normal" then
        let p := label_smoothed_nll_loss lprobs target eps (some padding_idx) V
        (some p.1, some p.2, none)
      else if distil_strategy = "direct" then
        let p := label_smoothed_nll_loss lprobs target eps (some padding_idx) V
        let KL := maskedKLSum rlog lprobs td.nmtProb target padding_idx
        (some KL, some p.2, some KL)
      else if distil_strategy = "adapter_direct" then
        let p := label_smoothed_nll_loss lprobs target eps (some padding_idx) V
        let mask := adapterMask td.knnProb target
        let distil := blendRows mask td.knnProb td.nmtProb
        let KL := maskedKLSum rlog lprobs distil target padding_idx
        (some (p.1 + 2 * KL), some p.2, some KL)
      else (none, none, none)

/-- The teacher forward call inside
`LabelSmoothedCrossEntropyCriterionAdapter.forward` (lines 111-115): executed
only when a teacher model exists and the strategy is not `"normal"`, and then
inside a `with torch.no_grad()` block, so gradient tracking is disabled for
the pass. -/
structure TeacherPass (τ : Type) where
  output : τ
  gradTrackingEnabled : Bool

/-- Runs the teacher pass of `forward` when its guard holds. -/
def runTeacherPass {τ : Type} (teacherAvailable : Bool) (distil_strategy : String)
    (teacherForward : Unit → τ) : Option (TeacherPass τ) :=
  if teacherAvailable = true ∧ distil_strategy ≠ "normal" then
    some { output := teacherForward (), gradTrackingEnabled := false }
  else none

/-- Modification of a student probability matrix that changes rows only at
padding positions (positions whose target id equals `pad`); `repl i` is the
arbitrary replacement row for position `i`.  Used to state that padding
positions cannot influence the loss. -/
def modifyPadRows : List (List ℚ) → List ℕ → (ℕ → List ℚ) → ℕ → ℕ → List (List ℚ)
  | r :: rs, t :: ts, repl, pad, i =>
      (if t = pad then repl i else r) :: modifyPadRows rs ts repl pad (i + 1)
  | rs, _, _, _, _ => rs

end Step2

/-! Specification-side formulations of the summed losses, written as indexed
sums in the language of the specification, to be compared with the structural
embeddings above. -/

/-- The standard negative-log-likelihood loss: the sum over non-padding
positions of the negated log-probability at the gold target id. -/
def specNLL (lprobs : List (List ℚ)) (target : List ℕ) (pad : ℕ) : ℚ :=
  ∑ i ∈ Finset.range target.length,
    if target.getD i 0 = pad then 0
    else -((lprobs.getD i []).getD (target.getD i 0) 0)

/-- The summed pointwise KL divergence with padding positions zeroed before
the reduction. -/
def specMaskedKL (rlog : ℚ → ℚ) (lprobs tprobs : List (List ℚ))
    (target : List ℕ) (pad : ℕ) : ℚ :=
  ∑ i ∈ Finset.range target.length,
    if target.getD i 0 = pad then 0
    else klRow rlog (lprobs.getD i []) (tprobs.getD i [])

namespace RecordTopk

/-! Embedding of `src/docs/kd/criterions/record_topk_predictions.py`. -/

/-- Embedding of `label_smoothed_nll_loss` from
`src/docs/kd/criterions/record_topk_predictions.py` (lines 43-61), on the
`reduce=True` path.  This variant divides epsilon by `V - 1`, rescales the
`nll` coefficient to `1 - epsilon - eps_i`, and adds the constant
`(1 - epsilon) * math.log(1 - epsilon) + eps_i * math.log(eps_i) * (V - 1)`;
both `math.log` calls raise `ValueError` (`none`) on a non-positive
argument. -/
def label_smoothed_nll_loss (rlog : ℚ → ℚ) (lprobs : List (List ℚ))
    (target : List ℕ) (epsilon : ℚ) (ignore_index : Option ℕ) (V : ℕ) :
    Option (ℚ × ℚ) :=
  let nll_loss := (Step2.nllTerms lprobs target ignore_index).sum
  let smooth_loss := (Step2.smoothTerms lprobs target ignore_index).sum
  let eps_i := epsilon / ((V : ℚ) - 1)
  let loss := (1 - epsilon - eps_i) * nll_loss + eps_i * smooth_loss
  (math_log rlog (1 - epsilon)).bind (fun l1 =>
    (math_log rlog eps_i).map (fun l2 =>
      (loss + ((1 - epsilon) * l1 + eps_i * l2 * ((V : ℚ) - 1)), nll_loss)))

/-- One line of the top-k prediction dump:
`' '.join(list(map(str, ids))) + '\n'`. -/
def lineOf (ids : List ℕ) : String :=
  String.intercalate " " (ids.map toString) ++ "\n"

/-- Embedding of the file-writing loop of
`LabelSmoothedCrossEntropyCriterion.forward` (lines 139-147): for every
position `(i, j)` of the 2-D target in row-major order whose id differs from
the padding index, one triple of lines is appended: the teacher top-k line,
the student top-k line, and the gold target line. -/
def recordLines (target : List (List ℕ)) (tt st : List (List (List ℕ)))
    (pad : ℕ) : List (String × String × String) :=
  ((List.range target.length).map (fun i =>
    (List.range (target.getD i []).length).filterMap (fun j =>
      if (target.getD i []).getD j 0 ≠ pad then
        some (lineOf ((tt.getD i []).getD j []),
              lineOf ((st.getD i []).getD j []),
              toString ((target.getD i []).getD j 0) ++ "\n")
      else none))).flatten

/-- The row-major list of non-padding positions of a 2-D target tensor. -/
def nonPadIndexPairs (target : List (List ℕ)) (pad : ℕ) : List (ℕ × ℕ) :=
  ((List.range target.length).map (fun i =>
    ((List.range (target.getD i []).length).filter
      (fun j => (target.getD i []).getD j 0 ≠ pad)).map (fun j => (i, j)))).flatten

/-- Splits the line triples into the three files
`teacher_top{k}_preds.txt`, `student_top{k}_preds.txt`, `golden_targets.txt`. -/
def filesOf (l : List (String × String × String)) :
    List String × List String × List String :=
  (l.map (fun x => x.1), l.map (fun x => x.2.1), l.map (fun x => x.2.2))

/-- The outputs of `LabelSmoothedCrossEntropyCriterion.forward` relevant to
the claims: the returned loss, the logged losses, and the lines appended to
the three dump files. -/
structure TopkOut where
  loss : ℚ
  mle_loss : ℚ
  nll_loss : ℚ
  kd_loss1 : ℚ
  kd_loss2 : ℚ
  files : List String × List String × List String
deriving DecidableEq

/-- Embedding of `LabelSmoothedCrossEntropyCriterion.forward` (lines 86-176)
with `ignore_prefix_size = 0` (its constructor default).  `lprobs` is the
student's `(N, V)` log-probability matrix, `target2d` the 2-D target tensor
(`target2d.flatten` is its `view(-1)`), `tt`/`st` the teacher and student
`torch.topk` index tensors.  The whole call is `none` when the inner
`label_smoothed_nll_loss` raises.  With a teacher model the returned loss is
`mle_loss * 0.0`, the dump files are written, and `kd_loss1`/`kd_loss2` are
`zeros_like(loss)`; without one the loss is `mle_loss` and nothing is
written. -/
def forward (rlog : ℚ → ℚ) (teacher_present : Bool) (lprobs : List (List ℚ))
    (target2d : List (List ℕ)) (tt st : List (List (List ℕ)))
    (eps : ℚ) (pad V : ℕ) : Option TopkOut :=
  match label_smoothed_nll_loss rlog lprobs target2d.flatten eps (some pad) V with
  | none => none
  | some p =>
      if teacher_present then
        some { loss := p.1 * 0, mle_loss := p.1, nll_loss := p.2,
               kd_loss1 := 0, kd_loss2 := 0,
               files := filesOf (recordLines target2d tt st pad) }
      else
        some { loss := p.1, mle_loss := p.1, nll_loss := p.2,
               kd_loss1 := 0, kd_loss2 := 0,
               files := ([], [], []) }

end RecordTopk

namespace AdaptiveModel

/-! Embedding of `src/knnbox/models/adaptive_knn_mt.py`. -/

/-- One model parameter: the submodule it belongs to and its
`requires_grad` flag. -/
structure ModelParam where
  module : String
  requires_grad : Bool
deriving DecidableEq

/-- Modelled from the spec: `disable_model_grad` (imported from
`knnbox.common_utils`, whose source file is not part of the sources) freezes
the whole model, i.e. disables gradient computation on every parameter. -/
def disable_model_grad (ps : List ModelParam) : List ModelParam :=
  ps.map (fun p => { p with requires_grad := false })

/-- Modelled from the spec: `enable_module_grad` (imported from
`knnbox.common_utils`, whose source file is not part of the sources) enables
gradient computation on the parameters of the named submodule, leaving every
other parameter untouched. -/
def enable_module_grad (ps : List ModelParam) (name : String) : List ModelParam :=
  ps.map (fun p => if p.module = name then { p with requires_grad := true } else p)

/-- Lines 42-44 of `AdaptiveKNNMT.__init__`: in `train_metak` mode the
constructor calls `disable_model_grad(self)` and then
`enable_module_grad(self, "combiner")`; in every other mode it leaves the
parameters as built. -/
def adaptiveKNNMT_init_grads (knn_mode : String) (ps : List ModelParam) :
    List ModelParam :=
  if knn_mode = "train_metak" then
    enable_module_grad (disable_model_grad ps) "combiner"
  else ps

/-- The positive floor applied before taking logarithms of mixed
probabilities (the spec fixes no concrete value; any positive constant
realizes it). -/
def probFloor : ℚ := 1 / 10 ^ 9

/-- Modelled from the spec: `get_combined_prob` of the Combiner (module
`knnbox.combiner`, whose source file is not part of the sources) computes
`lambda * knn_prob + (1 - lambda) * model_prob` elementwise and, when
`log_probs` is requested, returns the natural logarithm of the mixture after
applying a numerically safe positive floor so that `log(0)` never occurs. -/
def get_combined_prob (rlog : ℚ → ℚ) (knn_prob model_prob : List ℚ)
    (lambda_ : ℚ) (log_probs : Bool) : List ℚ :=
  let combined :=
    List.zipWith (fun k m => lambda_ * k + (1 - lambda_) * m) knn_prob model_prob
  if log_probs then combined.map (fun x => rlog (max x probFloor)) else combined

/-- Embedding of `TransformerDecoder.forward` of the base model (an external collaborator):
extract the features and, unless `features_only`, apply the output layer. -/
def baseDecoderForward {ι α ε : Type} (extract_features : ι → α × ε)
    (output_layer : α → α) (inp : ι) (features_only : Bool) : α × ε :=
  let xe := extract_features inp
  (if features_only then xe.1 else output_layer xe.1, xe.2)

/-- Embedding of `AdaptiveKNNMTDecoder.forward` (lines 146-185).  Besides the
base computation it caches the mean encoder hidden state and, in `inference`
and `train_metak` modes only, issues one retrieval call with the extracted
features and the cached hidden state; in `build_datastore` mode the retrieval
branch is `pass`.  The returned triple is the base output, the cached hidden
state, and the list of issued retrieval calls. -/
def adaptiveDecoderForward {ι α ε ρ : Type} (knn_mode : String)
    (extract_features : ι → α × ε) (output_layer : α → α)
    (encoder_mean_hidden : ι → ρ) (inp : ι) (features_only : Bool) :
    (α × ε) × ρ × List (α × ρ) :=
  let xe := extract_features inp
  let cache_hidden := encoder_mean_hidden inp
  let retrievals :=
    if knn_mode = "build_datastore" then []
    else if knn_mode = "inference" ∨ knn_mode = "train_metak" then
      [(xe.1, cache_hidden)]
    else []
  ((if features_only then xe.1 else output_layer xe.1, xe.2),
   cache_hidden, retrievals)

/-- Embedding of `AdaptiveKNNMTDecoder.get_normalized_probs` (lines 188-206):
in `inference` and `train_metak` modes it returns the knn-combined
probability; in every other mode it falls through to the base
(`super()`) implementation, embedded as the external `super_probs`. -/
def adaptive_get_normalized_probs {ν π : Type} (knn_mode : String)
    (super_probs : ν → Bool → π) (knn_combined : ν → Bool → π)
    (net_output : ν) (log_probs : Bool) : π :=
  if knn_mode = "inference" ∨ knn_mode = "train_metak" then
    knn_combined net_output log_probs
  else super_probs net_output log_probs

end AdaptiveModel

/-! Helper lemmas relating the structural embeddings to the indexed
specification-side sums. -/

theorem klRow_left_nil (rlog : ℚ → ℚ) (targetRow : List ℚ) :
    klRow rlog [] targetRow = 0 := by
  simp [klRow]

theorem klRow_right_nil (rlog : ℚ → ℚ) (input : List ℚ) :
    klRow rlog input [] = 0 := by
  simp [klRow]

theorem nllTerms_sum_eq_specNLL (lprobs : List (List ℚ)) (target : List ℕ)
    (pad : ℕ) :
    (Step2.nllTerms lprobs target (some pad)).sum = specNLL lprobs target pad := by
  induction target generalizing lprobs with
  | nil => simp [Step2.nllTerms, specNLL]
  | cons t ts ih =>
    cases lprobs with
    | nil =>
      rw [show Step2.nllTerms [] (t :: ts) (some pad) = [] from rfl, List.sum_nil,
        specNLL, Finset.sum_eq_zero]
      intro i _
      split <;> simp
    | cons lp lps =>
      rw [show Step2.nllTerms (lp :: lps) (t :: ts) (some pad)
            = (if t = pad then 0 else -(lp.getD t 0))
                :: Step2.nllTerms lps ts (some pad) from rfl,
        List.sum_cons, ih, specNLL, specNLL, List.length_cons,
        Finset.sum_range_succ']
      simp only [List.getD_cons_succ, List.getD_cons_zero]
      exact add_comm _ _

theorem maskedKLSum_eq_specMaskedKL (rlog : ℚ → ℚ) (lprobs tprobs : List (List ℚ))
    (target : List ℕ) (pad : ℕ) :
    Step2.maskedKLSum rlog lprobs tprobs target pad =
      specMaskedKL rlog lprobs tprobs target pad := by
  induction target generalizing lprobs tprobs with
  | nil =>
    rw [specMaskedKL]
    cases lprobs <;> cases tprobs <;> simp [Step2.maskedKLSum]
  | cons t ts ih =>
    cases lprobs with
    | nil =>
      rw [show Step2.maskedKLSum rlog [] tprobs (t :: ts) pad = 0 by
            cases tprobs <;> rfl,
        specMaskedKL, Finset.sum_eq_zero]
      intro i _
      split
      · rfl
      · simp [klRow_left_nil]
    | cons lp lps =>
      cases tprobs with
      | nil =>
        rw [show Step2.maskedKLSum rlog (lp :: lps) [] (t :: ts) pad = 0 from rfl,
          specMaskedKL, Finset.sum_eq_zero]
        intro i _
        split
        · rfl
        · simp [klRow_right_nil]
      | cons tp tps =>
        rw [show Step2.maskedKLSum rlog (lp :: lps) (tp :: tps) (t :: ts) pad
              = (if t = pad then 0 else klRow rlog lp tp)
                  + Step2.maskedKLSum rlog lps tps ts pad from rfl,
          ih, specMaskedKL, specMaskedKL, List.length_cons, Finset.sum_range_succ']
        simp only [List.getD_cons_succ, List.getD_cons_zero]
        exact add_comm _ _

theorem le_foldl_max (l : List ℚ) (a : ℚ) : a ≤ l.foldl max a := by
  induction l generalizing a with
  | nil => exact le_refl a
  | cons b l ih => exact le_trans (le_max_left a b) (ih (max a b))

theorem mem_le_foldl_max (l : List ℚ) (a x : ℚ) (hx : x ∈ l) :
    x ≤ l.foldl max a := by
  induction l generalizing a with
  | nil => cases hx
  | cons b l ih =>
    rcases List.mem_cons.mp hx with h | h
    · subst h
      exact le_trans (le_max_right a x) (le_foldl_max l (max a x))
    · exact ih (max a b) h

theorem getD_le_rowMax (l : List ℚ) (t : ℕ) (ht : t < l.length) :
    l.getD t 0 ≤ rowMax l := by
  cases l with
  | nil => simp at ht
  | cons a l' =>
    have hmem : (a :: l').getD t 0 ∈ a :: l' := by
      rw [List.getD_eq_getElem _ _ ht]
      exact List.getElem_mem ht
    rcases List.mem_cons.mp hmem with h | h
    · rw [h, rowMax]
      exact le_foldl_max l' a
    · rw [rowMax]
      exact mem_le_foldl_max l' a _ h

theorem adapterMask_getD (rs : List (List ℚ)) (ts : List ℕ) (i : ℕ)
    (h1 : i < rs.length) (h2 : i < ts.length) :
    (Step2.adapterMask rs ts).getD i 0 =
      if (rs.getD i []).getD (ts.getD i 0) 0 ≥ rowMax (rs.getD i []) then 1
      else 0 := by
  induction rs generalizing ts i with
  | nil => simp at h1
  | cons r rs ih =>
    cases ts with
    | nil => simp at h2
    | cons t ts' =>
      cases i with
      | zero => rfl
      | succ i =>
        rw [show Step2.adapterMask (r :: rs) (t :: ts')
              = (if r.getD t 0 ≥ rowMax r then (1 : ℚ) else 0)
                  :: Step2.adapterMask rs ts' from rfl]
        simp only [List.getD_cons_succ]
        exact ih ts' i (by simpa using h1) (by simpa using h2)

theorem getD_zipWith (f : ℚ → ℚ → ℚ) (k n : List ℚ) (j : ℕ)
    (h1 : j < k.length) (h2 : j < n.length) :
    (List.zipWith f k n).getD j 0 = f (k.getD j 0) (n.getD j 0) := by
  induction k generalizing n j with
  | nil => simp at h1
  | cons a k ih =>
    cases n with
    | nil => simp at h2
    | cons b n =>
      cases j with
      | zero => rfl
      | succ j =>
        simp only [List.zipWith_cons_cons, List.getD_cons_succ]
        exact ih n j (by simpa using h1) (by simpa using h2)

theorem blendRows_getD (ms : List ℚ) (ks ns : List (List ℚ)) (i : ℕ)
    (h1 : i < ms.length) (h2 : i < ks.length) (h3 : i < ns.length) :
    (Step2.blendRows ms ks ns).getD i [] =
      List.zipWith
        (fun a b => (0.5 : ℚ) * ms.getD i 0 * a + (1 - (0.5 : ℚ) * ms.getD i 0) * b)
        (ks.getD i []) (ns.getD i []) := by
  induction ms generalizing ks ns i with
  | nil => simp at h1
  | cons m ms ih =>
    cases ks with
    | nil => simp at h2
    | cons k ks' =>
      cases ns with
      | nil => simp at h3
      | cons n ns' =>
        cases i with
        | zero => rfl
        | succ i =>
          rw [show Step2.blendRows (m :: ms) (k :: ks') (n :: ns')
                = (List.zipWith
                    (fun a b => (0.5 : ℚ) * m * a + (1 - (0.5 : ℚ) * m) * b) k n)
                    :: Step2.blendRows ms ks' ns' from rfl]
          simp only [List.getD_cons_succ]
          exact ih ks' ns' i (by simpa using h1) (by simpa using h2) (by simpa using h3)

theorem map_modifyPadRows (f : List ℚ → List ℚ) (ps : List (List ℚ))
    (ts : List ℕ) (repl : ℕ → List ℚ) (pad i : ℕ) :
    (Step2.modifyPadRows ps ts repl pad i).map f =
      Step2.modifyPadRows (ps.map f) ts (fun n => f (repl n)) pad i := by
  induction ps generalizing ts i with
  | nil => cases ts <;> rfl
  | cons r rs ih =>
    cases ts with
    | nil => rfl
    | cons t ts' =>
      rw [show Step2.modifyPadRows (r :: rs) (t :: ts') repl pad i
            = (if t = pad then repl i else r)
                :: Step2.modifyPadRows rs ts' repl pad (i + 1) from rfl,
        List.map_cons, ih, apply_ite f]
      rfl

theorem nllTerms_modifyPadRows (ps : List (List ℚ)) (ts : List ℕ)
    (repl : ℕ → List ℚ) (pad i : ℕ) :
    Step2.nllTerms (Step2.modifyPadRows ps ts repl pad i) ts (some pad) =
      Step2.nllTerms ps ts (some pad) := by
  induction ps generalizing ts i with
  | nil => cases ts <;> rfl
  | cons r rs ih =>
    cases ts with
    | nil => rfl
    | cons t ts' =>
      by_cases h : t = pad <;>
        simp [Step2.modifyPadRows, Step2.nllTerms, h, ih]

theorem smoothTerms_modifyPadRows (ps : List (List ℚ)) (ts : List ℕ)
    (repl : ℕ → List ℚ) (pad i : ℕ) :
    Step2.smoothTerms (Step2.modifyPadRows ps ts repl pad i) ts (some pad) =
      Step2.smoothTerms ps ts (some pad) := by
  induction ps generalizing ts i with
  | nil => cases ts <;> rfl
  | cons r rs ih =>
    cases ts with
    | nil => rfl
    | cons t ts' =>
      by_cases h : t = pad <;>
        simp [Step2.modifyPadRows, Step2.smoothTerms, h, ih]

theorem maskedKLSum_modifyPadRows (rlog : ℚ → ℚ) (ps tps : List (List ℚ))
    (ts : List ℕ) (repl : ℕ → List ℚ) (pad i : ℕ) :
    Step2.maskedKLSum rlog (Step2.modifyPadRows ps ts repl pad i) tps ts pad =
      Step2.maskedKLSum rlog ps tps ts pad := by
  induction ps generalizing tps ts i with
  | nil => cases ts <;> cases tps <;> rfl
  | cons r rs ih =>
    cases ts with
    | nil => rfl
    | cons t ts' =>
      cases tps with
      | nil =>
        by_cases h : t = pad <;> simp [Step2.modifyPadRows, Step2.maskedKLSum, h]
      | cons tp tps' =>
        by_cases h : t = pad <;>
          simp [Step2.modifyPadRows, Step2.maskedKLSum, h, ih]

theorem label_smoothed_nll_loss_modifyPadRows (ps : List (List ℚ)) (ts : List ℕ)
    (repl : ℕ → List ℚ) (pad i : ℕ) (eps : ℚ) (V : ℕ) :
    Step2.label_smoothed_nll_loss (Step2.modifyPadRows ps ts repl pad i) ts eps
        (some pad) V =
      Step2.label_smoothed_nll_loss ps ts eps (some pad) V := by
  rw [Step2.label_smoothed_nll_loss, Step2.label_smoothed_nll_loss,
    nllTerms_modifyPadRows, smoothTerms_modifyPadRows]

theorem adapterMask_length (rs : List (List ℚ)) (ts : List ℕ) :
    (Step2.adapterMask rs ts).length = min rs.length ts.length := by
  induction rs generalizing ts with
  | nil => cases ts <;> simp [Step2.adapterMask]
  | cons r rs ih =>
    cases ts with
    | nil => simp [Step2.adapterMask]
    | cons t ts' =>
      rw [show Step2.adapterMask (r :: rs) (t :: ts')
            = (if r.getD t 0 ≥ rowMax r then (1 : ℚ) else 0)
                :: Step2.adapterMask rs ts' from rfl]
      simp [ih, Nat.succ_min_succ]

theorem filterMap_ite {α β : Type} (l : List α) (P : α → Prop) [DecidablePred P]
    (f : α → β) :
    l.filterMap (fun a => if P a then some (f a) else none) =
      (l.filter (fun a => decide (P a))).map f := by
  induction l with
  | nil => rfl
  | cons a l ih => by_cases h : P a <;> simp [h, ih]

theorem range_getD_map {α β : Type} (l : List α) (d : α) (f : α → β) :
    (List.range l.length).map (fun i => f (l.getD i d)) = l.map f := by
  induction l with
  | nil => rfl
  | cons a l ih =>
    rw [List.length_cons, List.range_succ_eq_map, List.map_cons, List.map_map]
    rw [show ((fun i => f ((a :: l).getD i d)) ∘ Nat.succ)
          = (fun i => f (l.getD i d)) from rfl]
    rw [List.getD_cons_zero, ih, List.map_cons]

theorem range_getD_filterMap {α β : Type} (l : List α) (d : α) (F : α → Option β) :
    (List.range l.length).filterMap (fun i => F (l.getD i d)) = l.filterMap F := by
  induction l with
  | nil => rfl
  | cons a l ih =>
    rw [List.length_cons, List.range_succ_eq_map, List.filterMap_cons,
      List.filterMap_map]
    rw [show ((fun i => F ((a :: l).getD i d)) ∘ Nat.succ)
          = (fun i => F (l.getD i d)) from rfl]
    rw [List.getD_cons_zero, ih, List.filterMap_cons]

/-! The claims. -/

/-- C1: With epsilon = 0, `label_smoothed_nll_loss` from
`label_smoothed_cross_entropy-step2.py` returns exactly the standard
negative-log-likelihood loss (the sum over non-padding positions of the
negated log-probability at the gold target id) in both components.  The
`record_topk_predictions.py` implementation, however, never returns a value at
epsilon = 0: its added normalization constant evaluates `math.log(eps_i)` with
`eps_i = 0 / (V - 1) = 0`, and `math.log(0.0)` raises `ValueError`, so the
claim fails on that implementation (a bug: that criterion's own configuration
defaults `label_smoothing` to 0.0, documented as "0 means no label
smoothing"). -/
theorem C1_eps_zero_reduces_to_nll :
    (∀ (lprobs : List (List ℚ)) (target : List ℕ) (pad V : ℕ),
        Step2.label_smoothed_nll_loss lprobs target 0 (some pad) V =
          (specNLL lprobs target pad, specNLL lprobs target pad)) ∧
    (∀ (rlog : ℚ → ℚ) (lprobs : List (List ℚ)) (target : List ℕ) (pad V : ℕ),
        RecordTopk.label_smoothed_nll_loss rlog lprobs target 0 (some pad) V
          = none) := by
  constructor
  · intro lprobs target pad V
    rw [Step2.label_smoothed_nll_loss]
    simp [nllTerms_sum_eq_specNLL]
  · intro rlog lprobs target pad V
    rw [RecordTopk.label_smoothed_nll_loss]
    simp [math_log]

/-- C2: In the `adapter_direct` strategy, the mask entry for a token row of
the retrieval (kNN) probability matrix is 1 if and only if the probability at
the gold target id meets or exceeds (equivalently: equals, since no entry can
exceed it) that row's maximum probability, and is 0 otherwise. -/
theorem C2_adapter_direct_mask (knnProb : List (List ℚ)) (target : List ℕ)
    (i : ℕ) (h1 : i < knnProb.length) (h2 : i < target.length)
    (h3 : target.getD i 0 < (knnProb.getD i []).length) :
    ((Step2.adapterMask knnProb target).getD i 0 = 1 ↔
      (knnProb.getD i []).getD (target.getD i 0) 0 = rowMax (knnProb.getD i [])) ∧
    ((Step2.adapterMask knnProb target).getD i 0 = 0 ↔
      ¬ (knnProb.getD i []).getD (target.getD i 0) 0
          = rowMax (knnProb.getD i [])) := by
  have hle := getD_le_rowMax (knnProb.getD i []) (target.getD i 0) h3
  rw [adapterMask_getD knnProb target i h1 h2]
  by_cases h : (knnProb.getD i []).getD (target.getD i 0) 0
      ≥ rowMax (knnProb.getD i [])
  · have heq : (knnProb.getD i []).getD (target.getD i 0) 0
        = rowMax (knnProb.getD i []) := le_antisymm hle h
    rw [if_pos h]
    exact ⟨⟨fun _ => heq, fun _ => rfl⟩,
      ⟨fun h10 => absurd h10 one_ne_zero, fun hc => absurd heq hc⟩⟩
  · have hne : ¬ (knnProb.getD i []).getD (target.getD i 0) 0
        = rowMax (knnProb.getD i []) := fun he => h (ge_of_eq he)
    rw [if_neg h]
    exact ⟨⟨fun h01 => absurd h01 zero_ne_one, fun hx => absurd (ge_of_eq hx) h⟩,
      ⟨fun _ => hne, fun _ => rfl⟩⟩

/-- Witness for C2 at a concrete input: one token whose gold probability 0.7
is the row maximum of the retrieval row `[0.7, 0.3]`. -/
theorem C2_adapter_direct_mask_witness :
    ((0 : ℕ) < ([[(0.7 : ℚ), 0.3]] : List (List ℚ)).length ∧
      (0 : ℕ) < ([0] : List ℕ).length ∧
      ([0] : List ℕ).getD 0 0
        < (([[(0.7 : ℚ), 0.3]] : List (List ℚ)).getD 0 []).length) ∧
    (((Step2.adapterMask [[(0.7 : ℚ), 0.3]] [0]).getD 0 0 = 1 ↔
        (([[(0.7 : ℚ), 0.3]] : List (List ℚ)).getD 0 []).getD
            (([0] : List ℕ).getD 0 0) 0
          = rowMax (([[(0.7 : ℚ), 0.3]] : List (List ℚ)).getD 0 [])) ∧
      ((Step2.adapterMask [[(0.7 : ℚ), 0.3]] [0]).getD 0 0 = 0 ↔
        ¬ (([[(0.7 : ℚ), 0.3]] : List (List ℚ)).getD 0 []).getD
            (([0] : List ℕ).getD 0 0) 0
          = rowMax (([[(0.7 : ℚ), 0.3]] : List (List ℚ)).getD 0 []))) :=
  ⟨⟨by decide, by decide, by decide⟩,
    C2_adapter_direct_mask [[(0.7 : ℚ), 0.3]] [0] 0 (by decide) (by decide)
      (by decide)⟩

/-- C3: With strategy "direct" and a teacher output present, `compute_loss`
returns as its loss exactly the padding-masked summed KL divergence between
the student distribution and the frozen teacher's output distribution (the
same value is reported as `KD_loss`); the gold-target label-smoothed
cross-entropy survives only in the `nll_loss` logging component, contributing
nothing to the returned loss, whose formula mentions neither it nor epsilon.
The teacher forward pass of `forward`, which supplies the retrieval query
from the teacher's hidden representation, runs with gradient tracking
disabled. -/
theorem C3_direct_strategy {τ : Type} (teacherForward : Unit → τ)
    (rlog : ℚ → ℚ) (td : Step2.TeacherData) (probs : List (List ℚ))
    (target : List ℕ) (pad : ℕ) (eps : ℚ) (V : ℕ) :
    Step2.compute_loss rlog "direct" (some td) probs target pad eps V =
      (some (specMaskedKL rlog (probs.map (fun r => r.map rlog)) td.nmtProb
          target pad),
       some ((Step2.label_smoothed_nll_loss (probs.map (fun r => r.map rlog))
          target eps (some pad) V).2),
       some (specMaskedKL rlog (probs.map (fun r => r.map rlog)) td.nmtProb
          target pad)) ∧
    Step2.runTeacherPass true "direct" teacherForward =
      some { output := teacherForward (), gradTrackingEnabled := false } := by
  constructor
  · simp [Step2.compute_loss, maskedKLSum_eq_specMaskedKL]
  · rw [Step2.runTeacherPass, if_pos ⟨rfl, by decide⟩]

/-- C4: In the `adapter_direct` strategy, the returned loss is the gold
label-smoothed cross-entropy plus a KL-divergence term of weight 2.0 against
the blended distillation target, padding positions being zeroed before the
final sum; and the blended target is entrywise
`0.5 * mask * kNN_prob + (1 - 0.5 * mask) * teacher_prob`. -/
theorem C4_adapter_direct_loss (rlog : ℚ → ℚ) (td : Step2.TeacherData)
    (probs : List (List ℚ)) (target : List ℕ) (pad : ℕ) (eps : ℚ) (V : ℕ)
    (i j : ℕ) (h1 : i < target.length) (h2 : i < td.knnProb.length)
    (h3 : i < td.nmtProb.length) (h4 : j < (td.knnProb.getD i []).length)
    (h5 : j < (td.nmtProb.getD i []).length) :
    (Step2.compute_loss rlog "adapter_direct" (some td) probs target pad eps
        V).1 =
      some ((Step2.label_smoothed_nll_loss (probs.map (fun r => r.map rlog))
          target eps (some pad) V).1 +
        2 * specMaskedKL rlog (probs.map (fun r => r.map rlog))
              (Step2.blendRows (Step2.adapterMask td.knnProb target)
                td.knnProb td.nmtProb) target pad) ∧
    ((Step2.blendRows (Step2.adapterMask td.knnProb target) td.knnProb
        td.nmtProb).getD i []).getD j 0 =
      (0.5 : ℚ) * (Step2.adapterMask td.knnProb target).getD i 0 *
          ((td.knnProb.getD i []).getD j 0) +
        (1 - (0.5 : ℚ) * (Step2.adapterMask td.knnProb target).getD i 0) *
          ((td.nmtProb.getD i []).getD j 0) := by
  constructor
  · simp [Step2.compute_loss, maskedKLSum_eq_specMaskedKL]
  · have hm : i < (Step2.adapterMask td.knnProb target).length := by
      rw [adapterMask_length]
      exact lt_min h2 h1
    rw [blendRows_getD _ _ _ i hm h2 h3, getD_zipWith _ _ _ j h4 h5]

/-- Witness for C4 at a concrete input: two token positions (the second one a
padding position), vocabulary size 2, with the logarithm oracle instantiated
by the zero function. -/
theorem C4_adapter_direct_loss_witness :
    ((0 : ℕ) < ([0, 1] : List ℕ).length ∧
      (0 : ℕ) < ([[(0.6 : ℚ), 0.4], [(0.5 : ℚ), 0.5]] : List (List ℚ)).length ∧
      (0 : ℕ) < ([[(0.2 : ℚ), 0.8], [(0.3 : ℚ), 0.7]] : List (List ℚ)).length ∧
      (1 : ℕ) < (([[(0.6 : ℚ), 0.4], [(0.5 : ℚ), 0.5]] : List (List ℚ)).getD 0
          []).length ∧
      (1 : ℕ) < (([[(0.2 : ℚ), 0.8], [(0.3 : ℚ), 0.7]] : List (List ℚ)).getD 0
          []).length) ∧
    ((Step2.compute_loss (fun _ => 0) "adapter_direct"
        (some ⟨[[(0.2 : ℚ), 0.8], [(0.3 : ℚ), 0.7]],
               [[(0.6 : ℚ), 0.4], [(0.5 : ℚ), 0.5]]⟩)
        [[(0.25 : ℚ), 0.75], [(0.9 : ℚ), 0.1]] [0, 1] 1 (1 / 10) 2).1 =
      some ((Step2.label_smoothed_nll_loss
          (([[(0.25 : ℚ), 0.75], [(0.9 : ℚ), 0.1]]).map
            (fun r => r.map (fun _ => (0 : ℚ)))) [0, 1] (1 / 10) (some 1) 2).1 +
        2 * specMaskedKL (fun _ => 0)
              (([[(0.25 : ℚ), 0.75], [(0.9 : ℚ), 0.1]]).map
                (fun r => r.map (fun _ => (0 : ℚ))))
              (Step2.blendRows
                (Step2.adapterMask [[(0.6 : ℚ), 0.4], [(0.5 : ℚ), 0.5]] [0, 1])
                [[(0.6 : ℚ), 0.4], [(0.5 : ℚ), 0.5]]
                [[(0.2 : ℚ), 0.8], [(0.3 : ℚ), 0.7]]) [0, 1] 1) ∧
    ((Step2.blendRows
        (Step2.adapterMask [[(0.6 : ℚ), 0.4], [(0.5 : ℚ), 0.5]] [0, 1])
        [[(0.6 : ℚ), 0.4], [(0.5 : ℚ), 0.5]]
        [[(0.2 : ℚ), 0.8], [(0.3 : ℚ), 0.7]]).getD 0 []).getD 1 0 =
      (0.5 : ℚ) * (Step2.adapterMask [[(0.6 : ℚ), 0.4], [(0.5 : ℚ), 0.5]]
            [0, 1]).getD 0 0 *
          ((([[(0.6 : ℚ), 0.4], [(0.5 : ℚ), 0.5]] : List (List ℚ)).getD 0
            []).getD 1 0) +
        (1 - (0.5 : ℚ) * (Step2.adapterMask [[(0.6 : ℚ), 0.4], [(0.5 : ℚ), 0.5]]
            [0, 1]).getD 0 0) *
          ((([[(0.2 : ℚ), 0.8], [(0.3 : ℚ), 0.7]] : List (List ℚ)).getD 0
            []).getD 1 0)) :=
  ⟨⟨by decide, by decide, by decide, by decide, by decide⟩,
    C4_adapter_direct_loss (fun _ => 0)
      ⟨[[(0.2 : ℚ), 0.8], [(0.3 : ℚ), 0.7]],
       [[(0.6 : ℚ), 0.4], [(0.5 : ℚ), 0.5]]⟩
      [[(0.25 : ℚ), 0.75], [(0.9 : ℚ), 0.1]] [0, 1] 1 (1 / 10) 2 0 1
      (by decide) (by decide) (by decide) (by decide) (by decide)⟩

/-- C5: Positions whose target equals the padding index contribute nothing to
any component returned by `compute_loss`: replacing the student probability
rows at padding positions by arbitrary other rows (the summed nll, smoothing
and KL terms all mask those positions to zero) leaves the returned
`(loss, nll_loss, KD_loss)` triple unchanged, for every strategy and teacher
output. -/
theorem C5_padding_rows_do_not_affect_loss (rlog : ℚ → ℚ)
    (distil_strategy : String) (teacher_output : Option Step2.TeacherData)
    (probs : List (List ℚ)) (target : List ℕ) (pad : ℕ) (eps : ℚ) (V : ℕ)
    (repl : ℕ → List ℚ) (i0 : ℕ) :
    Step2.compute_loss rlog distil_strategy teacher_output
        (Step2.modifyPadRows probs target repl pad i0) target pad eps V =
      Step2.compute_loss rlog distil_strategy teacher_output probs target pad
        eps V := by
  simp only [Step2.compute_loss, map_modifyPadRows]
  cases teacher_output with
  | none => rw [label_smoothed_nll_loss_modifyPadRows]
  | some td =>
    by_cases hn : distil_strategy = "normal"
    · simp [hn, label_smoothed_nll_loss_modifyPadRows]
    · by_cases hd : distil_strategy = "direct"
      · simp [hn, hd, label_smoothed_nll_loss_modifyPadRows,
          maskedKLSum_modifyPadRows]
      · by_cases ha : distil_strategy = "adapter_direct"
        · simp [hn, hd, ha, label_smoothed_nll_loss_modifyPadRows,
            maskedKLSum_modifyPadRows]
        · simp [hn, hd, ha]

/-- C6: In `train_metak` mode the `AdaptiveKNNMT` constructor leaves gradient
computation enabled exactly on the combiner (metak network) parameters: every
parameter of the resulting model has `requires_grad = true` if and only if it
belongs to the `combiner` submodule; all others are frozen. -/
theorem C6_train_metak_only_combiner_grads (ps : List AdaptiveModel.ModelParam)
    (p : AdaptiveModel.ModelParam)
    (hp : p ∈ AdaptiveModel.adaptiveKNNMT_init_grads "train_metak" ps) :
    p.requires_grad = true ↔ p.module = "combiner" := by
  rw [AdaptiveModel.adaptiveKNNMT_init_grads, if_pos rfl,
    AdaptiveModel.enable_module_grad, AdaptiveModel.disable_model_grad,
    List.map_map] at hp
  obtain ⟨q, hq, rfl⟩ := List.mem_map.mp hp
  by_cases h : q.module = "combiner"
  · simp [Function.comp, h]
  · simp [Function.comp, h]

/-- Witness for C6: a two-parameter model, one combiner parameter (initially
frozen) and one decoder parameter (initially trainable). -/
theorem C6_train_metak_only_combiner_grads_witness :
    ((⟨"combiner", true⟩ : AdaptiveModel.ModelParam) ∈
        AdaptiveModel.adaptiveKNNMT_init_grads "train_metak"
          [⟨"combiner", false⟩, ⟨"decoder.layers.0", true⟩]) ∧
    ((⟨"combiner", true⟩ : AdaptiveModel.ModelParam).requires_grad = true ↔
      (⟨"combiner", true⟩ : AdaptiveModel.ModelParam).module = "combiner") :=
  ⟨by decide,
    C6_train_metak_only_combiner_grads
      [⟨"combiner", false⟩, ⟨"decoder.layers.0", true⟩] ⟨"combiner", true⟩
      (by decide)⟩

/-- C7: `get_combined_prob` computes the elementwise mixture
`lambda * knn_prob + (1 - lambda) * model_prob`; when `log_probs` is
requested it returns the logarithm of this mixture after the positive floor
`probFloor`, and the floored argument handed to the logarithm is positive for
every possible entry, so a `log(0)` (negative infinity) can never arise. -/
theorem C7_get_combined_prob (rlog : ℚ → ℚ) (knn_prob model_prob : List ℚ)
    (lambda_ : ℚ) :
    AdaptiveModel.get_combined_prob rlog knn_prob model_prob lambda_ false =
      List.zipWith (fun k m => lambda_ * k + (1 - lambda_) * m) knn_prob
        model_prob ∧
    AdaptiveModel.get_combined_prob rlog knn_prob model_prob lambda_ true =
      (List.zipWith (fun k m => lambda_ * k + (1 - lambda_) * m) knn_prob
        model_prob).map (fun x => rlog (max x AdaptiveModel.probFloor)) ∧
    ∀ x : ℚ, 0 < max x AdaptiveModel.probFloor := by
  refine ⟨rfl, rfl, fun x => ?_⟩
  have h : (0 : ℚ) < AdaptiveModel.probFloor := by
    norm_num [AdaptiveModel.probFloor]
  exact lt_of_lt_of_le h (le_max_right x _)

/-- C8: The top-k dump loop appends, for every non-padding target position in
row-major (batch) order, exactly one line triple: explicitly, the appended
triples are the map over the non-padding index pairs of (teacher top-k line,
student top-k line, gold id line); consequently the three files receive
equally many lines, one per non-padding token, the gold file is exactly the
list of non-padding gold ids in order, and padding positions produce no
lines in any file.  The last part ties this to `forward`: whenever the
teacher-present `forward` returns, its files are exactly these lines. -/
theorem C8_topk_dump_lines (target : List (List ℕ)) (tt st : List (List (List ℕ)))
    (pad : ℕ) :
    RecordTopk.recordLines target tt st pad =
      (RecordTopk.nonPadIndexPairs target pad).map (fun q =>
        (RecordTopk.lineOf ((tt.getD q.1 []).getD q.2 []),
         RecordTopk.lineOf ((st.getD q.1 []).getD q.2 []),
         toString ((target.getD q.1 []).getD q.2 0) ++ "\n")) ∧
    (RecordTopk.recordLines target tt st pad).length =
      (RecordTopk.nonPadIndexPairs target pad).length ∧
    (RecordTopk.recordLines target tt st pad).map (fun x => x.2.2) =
      (target.flatten.filter (fun t => decide (t ≠ pad))).map
        (fun t => toString t ++ "\n") ∧
    (∀ (rlog : ℚ → ℚ) (lprobs : List (List ℚ)) (eps : ℚ) (V : ℕ),
      (RecordTopk.forward rlog true lprobs target tt st eps pad V).map
          (fun o => o.files) =
        (RecordTopk.forward rlog true lprobs target tt st eps pad V).map
          (fun _ => RecordTopk.filesOf (RecordTopk.recordLines target tt st pad))) := by
  have h1 : RecordTopk.recordLines target tt st pad =
      (RecordTopk.nonPadIndexPairs target pad).map (fun q =>
        (RecordTopk.lineOf ((tt.getD q.1 []).getD q.2 []),
         RecordTopk.lineOf ((st.getD q.1 []).getD q.2 []),
         toString ((target.getD q.1 []).getD q.2 0) ++ "\n")) := by
    rw [RecordTopk.recordLines, RecordTopk.nonPadIndexPairs, List.map_flatten,
      List.map_map]
    refine congrArg List.flatten (List.map_congr_left fun i _ => ?_)
    rw [Function.comp, List.map_map,
      filterMap_ite (List.range (target.getD i []).length)
        (fun j => (target.getD i []).getD j 0 ≠ pad)
        (fun j => (RecordTopk.lineOf ((tt.getD i []).getD j []),
          RecordTopk.lineOf ((st.getD i []).getD j []),
          toString ((target.getD i []).getD j 0) ++ "\n"))]
    rfl
  refine ⟨h1, by rw [h1, List.length_map], ?_, ?_⟩
  · rw [h1, List.map_map, RecordTopk.nonPadIndexPairs, List.map_flatten,
      List.map_map, List.filter_flatten, List.map_flatten, List.map_map]
    refine congrArg List.flatten ?_
    rw [← range_getD_map target ([] : List ℕ)
        (List.map (fun t => toString t ++ "\n") ∘
          List.filter (fun t => decide (t ≠ pad)))]
    refine List.map_congr_left fun i _ => ?_
    rw [Function.comp, List.map_map]
    show List.map (fun j => toString ((target.getD i []).getD j 0) ++ "\n")
        ((List.range (target.getD i []).length).filter
          (fun j => decide ((target.getD i []).getD j 0 ≠ pad))) =
      ((target.getD i []).filter (fun t => decide (t ≠ pad))).map
        (fun t => toString t ++ "\n")
    calc List.map (fun j => toString ((target.getD i []).getD j 0) ++ "\n")
          ((List.range (target.getD i []).length).filter
            (fun j => decide ((target.getD i []).getD j 0 ≠ pad)))
        = (List.range (target.getD i []).length).filterMap
            (fun j => if (target.getD i []).getD j 0 ≠ pad then
              some (toString ((target.getD i []).getD j 0) ++ "\n")
            else none) :=
          (filterMap_ite _ _ _).symm
      _ = (target.getD i []).filterMap
            (fun t => if t ≠ pad then some (toString t ++ "\n") else none) :=
          range_getD_filterMap (target.getD i []) 0
            (fun t => if t ≠ pad then some (toString t ++ "\n") else none)
      _ = ((target.getD i []).filter (fun t => decide (t ≠ pad))).map
            (fun t => toString t ++ "\n") := filterMap_ite _ _ _
  · intro rlog lprobs eps V
    cases h : RecordTopk.label_smoothed_nll_loss rlog lprobs target.flatten eps
        (some pad) V with
    | none => simp [RecordTopk.forward, h]
    | some p => simp [RecordTopk.forward, h]

/-- C9: Whenever a teacher model is passed to the `record_topk_predictions`
forward, the returned loss is exactly zero (the computed cross-entropy is
multiplied by 0.0), so no gradient signal is produced, while the computed
cross-entropy and its nll component are still reported in the logging output
(`mle_loss`, `nll_loss`). -/
theorem C9_teacher_run_returns_zero_loss (rlog : ℚ → ℚ)
    (lprobs : List (List ℚ)) (target2d : List (List ℕ))
    (tt st : List (List (List ℕ))) (eps : ℚ) (pad V : ℕ) :
    RecordTopk.forward rlog true lprobs target2d tt st eps pad V =
      (RecordTopk.label_smoothed_nll_loss rlog lprobs target2d.flatten eps
        (some pad) V).map (fun p =>
          { loss := 0, mle_loss := p.1, nll_loss := p.2, kd_loss1 := 0,
            kd_loss2 := 0,
            files := RecordTopk.filesOf
              (RecordTopk.recordLines target2d tt st pad) }) := by
  cases h : RecordTopk.label_smoothed_nll_loss rlog lprobs target2d.flatten eps
      (some pad) V with
  | none => simp [RecordTopk.forward, h]
  | some p => simp [RecordTopk.forward, h]

/-- C10: In `build_datastore` mode the adaptive decoder behaves like the
unmodified base `TransformerDecoder`: its forward output equals the base
forward output, it issues no retrieval call, and `get_normalized_probs`
returns the base (`super()`) probabilities with no knn/model combination. -/
theorem C10_build_datastore_matches_base {ι α ε ρ ν π : Type}
    (extract_features : ι → α × ε) (output_layer : α → α)
    (encoder_mean_hidden : ι → ρ) (inp : ι) (features_only : Bool)
    (super_probs knn_combined : ν → Bool → π) (net_output : ν)
    (log_probs : Bool) :
    (AdaptiveModel.adaptiveDecoderForward "build_datastore" extract_features
        output_layer encoder_mean_hidden inp features_only).1 =
      AdaptiveModel.baseDecoderForward extract_features output_layer inp
        features_only ∧
    (AdaptiveModel.adaptiveDecoderForward "build_datastore" extract_features
        output_layer encoder_mean_hidden inp features_only).2.2 = [] ∧
    AdaptiveModel.adaptive_get_normalized_probs "build_datastore" super_probs
        knn_combined net_output log_probs = super_probs net_output log_probs := by
  refine ⟨rfl, ?_, ?_⟩
  · simp [AdaptiveModel.adaptiveDecoderForward]
  · rw [AdaptiveModel.adaptive_get_normalized_probs, if_neg (by decide)]

end FilterKD
